import Mathlib

/-!
Verification development for the frame-diffing and viewport/hotspot
compositing engine of `luma.core` (files `luma/core/framebuffer.py` and
`luma/core/virtual.py`).

Raster images (PIL `Image` objects) are modelled by the `Img` structure:
a width, a height and a row-major list of pixel rows, each pixel a natural
number (0 is the blank/black pixel that `Image.new` produces; colour-space
details are out of scope).  `crop` pads with 0 outside the source, and
`paste` clips to the destination, as PIL does.  Python generators are
modelled by the fully evaluated list they yield together with the state
the exhausted generator leaves behind; a Python `assert` failure or
raised exception is modelled by `none` / an error value.
-/

set_option synthInstance.maxSize 2048

/-- Model of a PIL image: width, height and row-major pixel rows.
Pixel values are naturals; `0` is the blank pixel. -/
structure Img where
  width : Nat
  height : Nat
  rows : List (List Nat)
deriving DecidableEq, Repr

/-- Pixel lookup; out-of-range reads give the blank pixel `0`
(matching PIL's zero padding for `crop` on well-formed images). -/
def Img.px (im : Img) (x y : Nat) : Nat :=
  (im.rows.getD y []).getD x 0

/-- Build a normalised image from a pixel function. -/
def Img.ofFn (w h : Nat) (f : Nat → Nat → Nat) : Img :=
  { width := w, height := h,
    rows := (List.range h).map fun y => (List.range w).map fun x => f x y }

/-- Model of `Image.new(mode, (w, h))`: an all-blank image. -/
def Img.new (w h : Nat) : Img :=
  Img.ofFn w h fun _ _ => 0

/-- Model of `image.crop((l, t, r, b))`: the `(r-l) x (b-t)` window whose
pixel `(x, y)` is the source pixel `(l+x, t+y)`, 0-padded beyond the
source (PIL semantics). -/
def Img.crop (im : Img) (l t r b : Nat) : Img :=
  Img.ofFn (r - l) (b - t) fun x y => im.px (l + x) (t + y)

/-- Model of `dest.paste(src, (x0, y0))`: pixels inside the pasted
rectangle come from `src`, everything else (including the clipped
out-of-bounds part) is left unchanged.  Offsets are signed, as in PIL. -/
def Img.paste (dest src : Img) (xy : Int × Int) : Img :=
  Img.ofFn dest.width dest.height fun x y =>
    if xy.1 ≤ (x : Int) ∧ (x : Int) < xy.1 + src.width ∧
       xy.2 ≤ (y : Int) ∧ (y : Int) < xy.2 + src.height
    then src.px ((x : Int) - xy.1).toNat ((y : Int) - xy.2).toNat
    else dest.px x y

/-- PIL image equality as the tests use it: same size and the same pixel
at every in-range coordinate. -/
def Img.eqv (a b : Img) : Prop :=
  a.width = b.width ∧ a.height = b.height ∧
    ∀ x < a.width, ∀ y < a.height, a.px x y = b.px x y

instance (a b : Img) : Decidable (Img.eqv a b) := by
  unfold Img.eqv
  infer_instance

/-- Coordinates (row-major) at which two same-sized images differ; the
nonzero support of `ImageChops.difference(a, b)`. -/
def diffCoords (a b : Img) : List (Nat × Nat) :=
  (List.range a.height).flatMap fun y =>
    (List.range a.width).filterMap fun x =>
      if a.px x y = b.px x y then none else some (x, y)

/-- Bounding box (left, top, right-exclusive, bottom-exclusive) of a set
of coordinates, `none` when there are none: the result of
`PIL.Image.getbbox`. -/
def bboxOf : List (Nat × Nat) → Option (Nat × Nat × Nat × Nat)
  | [] => none
  | (x, y) :: cs =>
    some (cs.foldl
      (fun acc p =>
        (min acc.1 p.1, min acc.2.1 p.2,
         max acc.2.2.1 (p.1 + 1), max acc.2.2.2 (p.2 + 1)))
      (x, y, x + 1, y + 1))

/-- Model of `ImageChops.difference(a, b).getbbox()`. -/
def diffBbox (a b : Img) : Option (Nat × Nat × Nat × Nat) :=
  bboxOf (diffCoords a b)

/-- Model of Python `range(0, stop, step)` for the grid walks of
`diff_to_previous.redraw` (`step` divides `stop` at every use site). -/
def gridSteps (stop step : Nat) : List Nat :=
  (List.range (stop / step)).map (· * step)

/-- State of `luma.core.framebuffer.diff_to_previous` (the
`debug=False` default is modelled; the debug branch only decorates the
yielded copies). `n` is `int(sqrt(num_segments))`, `prev_image` the
stored baseline frame. -/
structure diff_to_previous where
  n : Nat
  prev_image : Option Img
deriving DecidableEq, Repr

/-- Integer square root: `int(sqrt(m))`, the greatest `k` with `k*k ≤ m`. -/
def isqrt (m : Nat) : Nat :=
  Nat.findGreatest (fun k => k * k ≤ m) m

/-- Model of `diff_to_previous.__init__(num_segments)`:
`n = int(sqrt(num_segments))`, and the constructor assertion
`num_segments >= 1 and num_segments == n ** 2` must hold, else the
construction fails. -/
def diff_to_previous.init (num_segments : Nat) : Option diff_to_previous :=
  let n := isqrt num_segments
  if 1 ≤ num_segments ∧ num_segments = n ^ 2 then
    some { n := n, prev_image := none }
  else
    none

/-- The grid-cell walk at the heart of `diff_to_previous.redraw`: iterate
cells in row-major order, crop previous and current frame to each cell,
take the difference bounding box local to the cell and, when non-empty,
yield the current frame cropped to the absolute box together with that
box. -/
def diff_to_previous.deltas (prev image : Img)
    (segment_width segment_height : Nat) :
    List (Img × (Nat × Nat × Nat × Nat)) :=
  (gridSteps image.height segment_height).flatMap fun y =>
    (gridSteps image.width segment_width).filterMap fun x =>
      let prev_segment := prev.crop x y (x + segment_width) (y + segment_height)
      let curr_segment := image.crop x y (x + segment_width) (y + segment_height)
      match diffBbox prev_segment curr_segment with
      | none => none
      | some (l, t, r, b) =>
        some (curr_segment.crop l t r b, (x + l, y + t, x + r, y + b))

/-- Model of `diff_to_previous.redraw(image)`: the fully evaluated
yielded sequence of `(image_delta, bounding_box)` pairs together with
the state after the generator is exhausted; `none` models a failed
assertion (segment size does not cover the image). -/
def diff_to_previous.redraw (st : diff_to_previous) (image : Img) :
    Option (List (Img × (Nat × Nat × Nat × Nat)) × diff_to_previous) :=
  let W := image.width
  let H := image.height
  let segment_width := W / st.n
  let segment_height := H / st.n
  if segment_width * st.n = W ∧ segment_height * st.n = H then
    match st.prev_image with
    | none =>
      -- force a full redraw on the first frame
      some ([(image, (0, 0, W, H))], { st with prev_image := some image })
    | some prev =>
      let ds := diff_to_previous.deltas prev image segment_width segment_height
      if ds.isEmpty then
        some (ds, st)
      else
        some (ds, { st with prev_image := some image })
  else
    none

/-- Capability pair of a device sink: the physical width and height its
`display` accepts (model of the `mixin.capabilities` data the viewport
reads off `self._device`). -/
structure device where
  width : Nat
  height : Nat
deriving DecidableEq, Repr

/-- Model of `luma.core.virtual.hotspot` (and its `snapshot` subclass):
a fixed-size drawable region.  `draw` stands for the effect of the
render callback: the contents it paints into the fresh
`(width, height)` buffer that `paste_into` allocates (all-blank where
the callback does not paint).  `should_redraw` is the current verdict
of the redraw predicate — constantly `true` for the base class,
time-gated for `snapshot`; the claims below quantify over the verdict,
so it is a plain boolean here. -/
structure hotspot where
  width : Nat
  height : Nat
  draw : Img
  should_redraw : Bool
deriving DecidableEq, Repr

/-- Model of `calc_bounds(xy, entity)` for an entity of size `(w, h)`:
the bounding box `[left, top, right, bottom]` of the entity positioned
at `xy`. -/
def calc_bounds (xy : Int × Int) (w h : Nat) : Int × Int × Int × Int :=
  (xy.1, xy.2, xy.1 + w, xy.2 + h)

/-- Model of `range_overlap(a_min, a_max, b_min, b_max)`: neither range
is completely greater than the other. -/
def range_overlap (a_min a_max b_min b_max : Int) : Bool :=
  decide (a_min < b_max) && decide (b_min < a_max)

/-- Model of `hotspot.paste_into(image, xy)`: allocate a fresh
`(width, height)` buffer, let the render callback draw into it
(yielding `draw`'s pixels), then paste the buffer into the destination
image at `xy`.  Note that the paste mutates whatever destination image
is handed in — in `viewport.refresh` that destination is the shared
backing image. -/
def hotspot.paste_into (h : hotspot) (image : Img) (xy : Int × Int) : Img :=
  image.paste (Img.ofFn h.width h.height fun x y => h.draw.px x y) xy

/-- Model of `luma.core.virtual.viewport`: capability size, the wrapped
device, the exclusively owned backing image, the scroll position and
the ordered list of `(hotspot, position)` placements. -/
structure viewport where
  width : Nat
  height : Nat
  _device : device
  _backing_image : Img
  _position : Int × Int
  _hotspots : List (hotspot × (Int × Int))
deriving DecidableEq, Repr

/-- Model of `viewport.is_overlapping_viewport(hotspot, xy)`: the
hotspot's bounding box at `xy` against the visible window (the device
size at the scroll position), overlap required on both axes. -/
def viewport.is_overlapping_viewport (v : viewport) (h : hotspot)
    (xy : Int × Int) : Bool :=
  let (l1, t1, r1, b1) := calc_bounds xy h.width h.height
  let (l2, t2, r2, b2) := calc_bounds v._position v._device.width v._device.height
  range_overlap l1 r1 l2 r2 && range_overlap t1 b1 t2 b2

/-- Model of `viewport._crop_box()`: the visible window, with the
assertions `0 <= left <= right <= width` and
`0 <= top <= bottom <= height`; `none` models an assertion failure. -/
def viewport.crop_box (v : viewport) : Option (Nat × Nat × Nat × Nat) :=
  let left := v._position.1
  let top := v._position.2
  let right := left + v._device.width
  let bottom := top + v._device.height
  if 0 ≤ left ∧ left ≤ right ∧ right ≤ (v.width : Int) ∧
     0 ≤ top ∧ top ≤ bottom ∧ bottom ≤ (v.height : Int) then
    some (left.toNat, top.toNat, right.toNat, bottom.toNat)
  else
    none

/-- The placements `viewport.refresh` submits to the worker pool: those
whose hotspot reports `should_redraw()` and overlaps the visible
window, in registration order. -/
def viewport.scheduled (v : viewport) : List (hotspot × (Int × Int)) :=
  v._hotspots.filter fun p =>
    p.1.should_redraw && v.is_overlapping_viewport p.1 p.2

/-- Modelled from the spec: `luma.core.threadpool` is imported by
`luma.core.virtual` (`pool = threadpool(4)`) but its source file is not
part of the provided tree.  Per the spec's WorkerPool contract,
`submit` enqueues tasks for asynchronous execution by a fixed set of
workers, `wait_completion` blocks until all enqueued tasks have
finished, and no ordering guarantee between tasks is provided.  An
execution of the pool is therefore represented by the order in which
the submitted tasks complete: an arbitrary permutation of the
submitted task indices. -/
def threadpool.completion_order (numTasks : Nat) (order : List Nat) : Prop :=
  order.Perm (List.range numTasks)

/-- Model of `viewport.refresh()` (with `dither=False`): every
scheduled placement is submitted as a `paste_into` task targeting the
shared backing image; the tasks run in the pool's completion order
`order` (each renders into a fresh buffer and then pastes it into the
backing image); after the barrier the backing image is cropped to the
visible window and the crop is forwarded to the device sink.  The
returned list holds the frames passed to the sink's `display`;
`none` models the crop-box assertion failing (the exception escapes
before any `display` call). -/
def viewport.refresh (v : viewport) (order : List Nat) :
    Option (List Img × viewport) :=
  let sched := v.scheduled
  let backing := (order.filterMap fun i => sched[i]?).foldl
    (fun img p => p.1.paste_into img p.2) v._backing_image
  match viewport.crop_box v with
  | none => none
  | some (l, t, r, b) =>
    some ([backing.crop l t r b], { v with _backing_image := backing })

/-- Model of `viewport.remove_hotspot(hotspot, xy)`: `none` models the
`ValueError` that `list.remove` raises when the exact pair is not
registered; on success the first matching pair is removed and a blank
eraser image of the hotspot's size is pasted at `xy` into the backing
image immediately. -/
def viewport.remove_hotspot (v : viewport) (h : hotspot) (xy : Int × Int) :
    Option viewport :=
  if (h, xy) ∈ v._hotspots then
    some { v with
      _hotspots := v._hotspots.erase (h, xy),
      _backing_image := v._backing_image.paste (Img.new h.width h.height) xy }
  else
    none

/-- Two placements occupy disjoint rectangles (no overlapping pixel). -/
def placements_disjoint (p q : hotspot × (Int × Int)) : Prop :=
  p.2.1 + p.1.width ≤ q.2.1 ∨ q.2.1 + q.1.width ≤ p.2.1 ∨
  p.2.2 + p.1.height ≤ q.2.2 ∨ q.2.2 + q.1.height ≤ p.2.2

instance (p q : hotspot × (Int × Int)) : Decidable (placements_disjoint p q) := by
  unfold placements_disjoint
  infer_instance

/-- Model of `luma.core.virtual.history`: the savepoint stack (head of
the list is the top of the stack, i.e. the end of the Python list) and
the most recently displayed frame. -/
structure history where
  _savepoints : List Img
  _last_image : Option Img
deriving DecidableEq, Repr

/-- Model of `history.display(image)`: retain a copy as the last
displayed image and forward the frame to the wrapped device sink; the
second component is the frame the wrapped sink receives. -/
def history.display (st : history) (image : Img) : history × Img :=
  ({ st with _last_image := some image }, image)

/-- Model of `history.savepoint()`: if a frame was displayed since the
last savepoint, push it and clear the pending frame; otherwise do
nothing. -/
def history.savepoint (st : history) : history :=
  match st._last_image with
  | some img => { _savepoints := img :: st._savepoints, _last_image := none }
  | none => st

/-- Pop `count` entries off a savepoint stack, one at a time; `none`
models the `IndexError` of `list.pop` on an empty stack (at which
moment every remaining entry has already been consumed). -/
def history.popN : Nat → List Img → Option (List Img)
  | 0, s => some s
  | _ + 1, [] => none
  | count + 1, _ :: s => history.popN count s

/-- Model of `history.restore(drop)`: pop `drop` savepoints without
displaying them, then pop one more and display it via
`history.display`.  The first component is the frame displayed on the
wrapped sink (`none` models the `IndexError` escaping), the second the
history state afterwards — on failure the entries examined so far have
already been popped. -/
def history.restore (st : history) (drop : Nat) : Option Img × history :=
  match history.popN drop st._savepoints with
  | none => (none, { st with _savepoints := [] })
  | some [] => (none, { st with _savepoints := [] })
  | some (img :: rest) =>
    let r := history.display { st with _savepoints := rest } img
    (some r.2, r.1)

/-- Model of `history.__len__`: the number of retained savepoints. -/
def history.len (st : history) : Nat :=
  st._savepoints.length

/-- A 2x2 viewport over a 2x2 device with no hotspots registered. -/
def viewportNoHotspots : viewport :=
  { width := 2, height := 2, _device := { width := 2, height := 2 },
    _backing_image := Img.new 2 2, _position := (0, 0), _hotspots := [] }

/-- A 64x64 hotspot whose render callback paints nothing. -/
def hotspot64 : hotspot :=
  { width := 64, height := 64, draw := Img.new 64 64, should_redraw := true }

/-- A 256x64 viewport over a 128x64 device, scrolled to the origin, so
the visible window is `[0,128) x [0,64)`. -/
def viewport128 : viewport :=
  { width := 256, height := 64, _device := { width := 128, height := 64 },
    _backing_image := Img.new 256 64, _position := (0, 0), _hotspots := [] }

/-- A 1x1 hotspot that paints the pixel value 1. -/
def hotspotOne : hotspot :=
  { width := 1, height := 1, draw := { width := 1, height := 1, rows := [[1]] },
    should_redraw := true }

/-- A 1x1 hotspot that paints the pixel value 2. -/
def hotspotTwo : hotspot :=
  { width := 1, height := 1, draw := { width := 1, height := 1, rows := [[2]] },
    should_redraw := true }

/-- A 1x1 viewport with two overlapping dirty hotspots registered at
the same position. -/
def viewportOverlapping : viewport :=
  { width := 1, height := 1, _device := { width := 1, height := 1 },
    _backing_image := Img.new 1 1, _position := (0, 0),
    _hotspots := [(hotspotOne, (0, 0)), (hotspotTwo, (0, 0))] }

/-- A 2x1 viewport with the same two dirty hotspots at disjoint
positions. -/
def viewportDisjoint : viewport :=
  { width := 2, height := 1, _device := { width := 2, height := 1 },
    _backing_image := Img.new 2 1, _position := (0, 0),
    _hotspots := [(hotspotOne, (0, 0)), (hotspotTwo, (1, 0))] }

/-- A 2x2 viewport with a single registered hotspot at the origin and a
backing image that is white everywhere. -/
def viewportOneHotspot : viewport :=
  { width := 2, height := 2, _device := { width := 2, height := 2 },
    _backing_image := { width := 2, height := 2, rows := [[1, 1], [1, 1]] },
    _position := (0, 0), _hotspots := [(hotspotOne, (0, 0))] }

/-- A history holding two savepoints. -/
def historyTwoSavepoints : history :=
  { _savepoints := [Img.new 1 1, { width := 1, height := 1, rows := [[1]] }],
    _last_image := none }

/-- The all-blank 4x4 frame of the concrete scenario. -/
def blankFrame4 : Img := Img.new 4 4

/-- The 4x4 frame identical to blank except for a single white pixel at
`(3, 0)`. -/
def singlePixelFrame4 : Img :=
  { width := 4, height := 4,
    rows := [[0, 0, 0, 1], [0, 0, 0, 0], [0, 0, 0, 0], [0, 0, 0, 0]] }

/-- C2 (counterexample): on a 4x4 differ with `num_segments = 4`, after a
first redraw of the blank frame, the second redraw of the frame with one
white pixel at `(3, 0)` does NOT report the bounding box `(2, 0, 4, 2)`
claimed by the spec: the code reports the tight per-cell difference box
instead. -/
theorem C2_counterexample :
    diff_to_previous.init 4 = some { n := 2, prev_image := none } ∧
    diff_to_previous.redraw { n := 2, prev_image := none } blankFrame4 =
      some ([(blankFrame4, (0, 0, 4, 4))],
            { n := 2, prev_image := some blankFrame4 }) ∧
    (diff_to_previous.redraw { n := 2, prev_image := some blankFrame4 }
        singlePixelFrame4).map (fun r => r.1.map Prod.snd) ≠
      some [(2, 0, 4, 2)] := by
  refine ⟨by decide, by decide, by decide⟩

/-- C2 (amended): in the concrete 4x4 scenario the second redraw yields
exactly one `(sub_image, bounding_box)` pair, arising from the top-right
2x2 grid cell, whose sub-image is the single changed white pixel and
whose absolute bounding box is the tight difference box `(3, 0, 4, 1)`
(translated from the cell-local box), not the whole cell. -/
theorem C2_single_pixel_tight_bbox :
    diff_to_previous.init 4 = some { n := 2, prev_image := none } ∧
    diff_to_previous.redraw { n := 2, prev_image := none } blankFrame4 =
      some ([(blankFrame4, (0, 0, 4, 4))],
            { n := 2, prev_image := some blankFrame4 }) ∧
    diff_to_previous.redraw { n := 2, prev_image := some blankFrame4 }
        singlePixelFrame4 =
      some ([({ width := 1, height := 1, rows := [[1]] }, (3, 0, 4, 1))],
            { n := 2, prev_image := some singlePixelFrame4 }) := by
  refine ⟨by decide, by decide, by decide⟩

/-- C5: the constructor fails for `num_segments` in `{0, 2, 3, 5}` and
succeeds for `{1, 4, 9, 16}`; and for every differ state and image,
`redraw` fails (assertion) whenever the image width or height is not
divisible by `n`. -/
theorem C5_segmentation_validity :
    (diff_to_previous.init 0 = none ∧ diff_to_previous.init 2 = none ∧
     diff_to_previous.init 3 = none ∧ diff_to_previous.init 5 = none ∧
     (diff_to_previous.init 1).isSome = true ∧
     (diff_to_previous.init 4).isSome = true ∧
     (diff_to_previous.init 9).isSome = true ∧
     (diff_to_previous.init 16).isSome = true) ∧
    ∀ (st : diff_to_previous) (image : Img),
      (¬ st.n ∣ image.width ∨ ¬ st.n ∣ image.height) →
      diff_to_previous.redraw st image = none := by
  constructor
  · exact ⟨by decide, by decide, by decide, by decide,
           by decide, by decide, by decide, by decide⟩
  · intro st image h
    unfold diff_to_previous.redraw
    rw [if_neg]
    intro ⟨hw, hh⟩
    rcases h with h | h
    · exact h ((Nat.dvd_iff_div_mul_eq _ _).mpr hw)
    · exact h ((Nat.dvd_iff_div_mul_eq _ _).mpr hh)

/-- C5 witness: a concrete redraw failure, a 3x4 image on a differ with
`n = 2` (width 3 not divisible by 2). -/
theorem C5_witness :
    diff_to_previous.redraw { n := 2, prev_image := none }
      { width := 3, height := 4, rows := [[0, 0, 0], [0, 0, 0], [0, 0, 0], [0, 0, 0]] } =
      none :=
  C5_segmentation_validity.2 _ _ (Or.inl (by decide))
theorem Img.ofFn_px (w h : Nat) (f : Nat → Nat → Nat) {x y : Nat}
    (hx : x < w) (hy : y < h) : (Img.ofFn w h f).px x y = f x y := by
  unfold Img.ofFn Img.px
  simp [List.getD_eq_getElem?_getD, List.getElem?_map, List.getElem?_range, hx, hy]

theorem Img.crop_px (im : Img) (l t r b : Nat) {x y : Nat}
    (hx : x < r - l) (hy : y < b - t) :
    (im.crop l t r b).px x y = im.px (l + x) (t + y) := by
  unfold Img.crop
  exact Img.ofFn_px _ _ _ hx hy

theorem bboxOf_eq_none_iff (cs : List (Nat × Nat)) :
    bboxOf cs = none ↔ cs = [] := by
  cases cs with
  | nil => simp [bboxOf]
  | cons c cs => cases c; simp [bboxOf]

theorem diffBbox_eq_none_iff (a b : Img) :
    diffBbox a b = none ↔
      ∀ y < a.height, ∀ x < a.width, a.px x y = b.px x y := by
  unfold diffBbox diffCoords
  rw [bboxOf_eq_none_iff]
  rw [List.flatMap_eq_nil_iff]
  constructor
  · intro h y hy x hx
    have hmem := h y (List.mem_range.mpr hy)
    rw [List.filterMap_eq_nil_iff] at hmem
    have := hmem x (List.mem_range.mpr hx)
    by_contra hne
    simp [hne] at this
  · intro h y hy
    rw [List.filterMap_eq_nil_iff]
    intro x hx
    simp [h y (List.mem_range.mp hy) x (List.mem_range.mp hx)]

theorem mem_gridSteps {stop step x : Nat} :
    x ∈ gridSteps stop step ↔ ∃ i < stop / step, x = i * step := by
  unfold gridSteps
  simp [List.mem_map, List.mem_range, eq_comm]

theorem gridSteps_add_le {stop step x : Nat}
    (hcov : (stop / step) * step = stop) (hx : x ∈ gridSteps stop step) :
    x + step ≤ stop := by
  rcases mem_gridSteps.mp hx with ⟨i, hi, rfl⟩
  calc i * step + step = (i + 1) * step := by ring
  _ ≤ (stop / step) * step := Nat.mul_le_mul_right _ hi
  _ = stop := hcov

theorem deltas_nil_of_px_eq (prev image : Img) (sw sh : Nat)
    (hcw : (image.width / sw) * sw = image.width)
    (hch : (image.height / sh) * sh = image.height)
    (hpx : ∀ x < image.width, ∀ y < image.height, prev.px x y = image.px x y) :
    diff_to_previous.deltas prev image sw sh = [] := by
  unfold diff_to_previous.deltas
  rw [List.flatMap_eq_nil_iff]
  intro y hy
  rw [List.filterMap_eq_nil_iff]
  intro x hx
  have hbb : diffBbox (prev.crop x y (x + sw) (y + sh))
      (image.crop x y (x + sw) (y + sh)) = none := by
    rw [diffBbox_eq_none_iff]
    intro v hv u hu
    simp only [Img.crop, Img.ofFn] at hv hu
    rw [Img.crop_px _ _ _ _ _ (by omega) (by omega),
        Img.crop_px _ _ _ _ _ (by omega) (by omega)]
    have hxw : x + u < image.width := by
      have := gridSteps_add_le hcw hx
      omega
    have hyh : y + v < image.height := by
      have := gridSteps_add_le hch hy
      omega
    exact hpx _ hxw _ hyh
  simp only [hbb]

theorem px_eq_of_deltas_nil (prev image : Img) (sw sh : Nat)
    (hcw : (image.width / sw) * sw = image.width)
    (hch : (image.height / sh) * sh = image.height)
    (hsw : 0 < sw) (hsh : 0 < sh)
    (h : diff_to_previous.deltas prev image sw sh = []) :
    ∀ x < image.width, ∀ y < image.height, prev.px x y = image.px x y := by
  intro gx hgx gy hgy
  unfold diff_to_previous.deltas at h
  rw [List.flatMap_eq_nil_iff] at h
  have hymem : (gy / sh) * sh ∈ gridSteps image.height sh := by
    rw [mem_gridSteps]
    exact ⟨gy / sh, by
      have : gy / sh < image.height / sh :=
        Nat.div_lt_div_of_lt_of_dvd ⟨image.height / sh, by rw [Nat.mul_comm]; exact hch.symm⟩ hgy
      exact this, rfl⟩
  have hxmem : (gx / sw) * sw ∈ gridSteps image.width sw := by
    rw [mem_gridSteps]
    exact ⟨gx / sw, by
      have : gx / sw < image.width / sw :=
        Nat.div_lt_div_of_lt_of_dvd ⟨image.width / sw, by rw [Nat.mul_comm]; exact hcw.symm⟩ hgx
      exact this, rfl⟩
  have hrow := h _ hymem
  rw [List.filterMap_eq_nil_iff] at hrow
  have hcell := hrow _ hxmem
  set x := (gx / sw) * sw with hxdef
  set y := (gy / sh) * sh with hydef
  have hbb : diffBbox (prev.crop x y (x + sw) (y + sh))
      (image.crop x y (x + sw) (y + sh)) = none := by
    cases hd : diffBbox (prev.crop x y (x + sw) (y + sh))
        (image.crop x y (x + sw) (y + sh)) with
    | none => rfl
    | some bb =>
      obtain ⟨l, t, r, b⟩ := bb
      simp only [hd] at hcell
      exact absurd hcell (by simp)
  rw [diffBbox_eq_none_iff] at hbb
  have hx1 : gx % sw < sw := Nat.mod_lt _ hsw
  have hy1 : gy % sh < sh := Nat.mod_lt _ hsh
  have hbx := hbb (gy % sh) (by simp [Img.crop, Img.ofFn]; omega)
    (gx % sw) (by simp [Img.crop, Img.ofFn]; omega)
  rw [Img.crop_px _ _ _ _ _ (by omega) (by omega),
      Img.crop_px _ _ _ _ _ (by omega) (by omega)] at hbx
  have hgx' : x + gx % sw = gx := by
    rw [hxdef, Nat.mul_comm]
    exact Nat.div_add_mod gx sw
  have hgy' : y + gy % sh = gy := by
    rw [hydef, Nat.mul_comm]
    exact Nat.div_add_mod gy sh
  rw [hgx', hgy'] at hbx
  exact hbx
theorem init_prev_none {ns : Nat} {st : diff_to_previous}
    (h : diff_to_previous.init ns = some st) : st.prev_image = none := by
  unfold diff_to_previous.init at h
  dsimp only at h
  split at h
  · simp only [Option.some_inj] at h
    rw [← h]
  · exact absurd h (by simp)

theorem redraw_of_prev_none (st : diff_to_previous) (image : Img)
    (hprev : st.prev_image = none)
    (hw : image.width / st.n * st.n = image.width)
    (hh : image.height / st.n * st.n = image.height) :
    diff_to_previous.redraw st image =
      some ([(image, (0, 0, image.width, image.height))],
            { st with prev_image := some image }) := by
  unfold diff_to_previous.redraw
  dsimp only
  rw [if_pos ⟨hw, hh⟩, hprev]

theorem redraw_of_prev_some (st : diff_to_previous) (image prev : Img)
    (hprev : st.prev_image = some prev)
    (hw : image.width / st.n * st.n = image.width)
    (hh : image.height / st.n * st.n = image.height) :
    diff_to_previous.redraw st image =
      (if (diff_to_previous.deltas prev image (image.width / st.n)
            (image.height / st.n)).isEmpty
       then some (diff_to_previous.deltas prev image (image.width / st.n)
            (image.height / st.n), st)
       else some (diff_to_previous.deltas prev image (image.width / st.n)
            (image.height / st.n), { st with prev_image := some image })) := by
  unfold diff_to_previous.redraw
  dsimp only
  rw [if_pos ⟨hw, hh⟩, hprev]

/-- C3: on a freshly constructed segmented differ, for any two frames of
the same validly-segmentable size, `redraw(f1)` yields a non-empty
sequence, `redraw(f2)` yields an empty sequence exactly when the frames
are pixel-identical, and a further `redraw(f2)` always yields an empty
sequence (steady state). -/
theorem C3_segmented_diff_convergence :
    ∀ (ns : Nat) (st : diff_to_previous) (f1 f2 : Img),
      diff_to_previous.init ns = some st →
      f1.width = f2.width → f1.height = f2.height →
      st.n ∣ f1.width → st.n ∣ f1.height →
      0 < f1.width → 0 < f1.height →
      ∃ r1 st1 r2 st2 r3 st3,
        diff_to_previous.redraw st f1 = some (r1, st1) ∧ r1 ≠ [] ∧
        diff_to_previous.redraw st1 f2 = some (r2, st2) ∧
        (r2 = [] ↔ Img.eqv f1 f2) ∧
        diff_to_previous.redraw st2 f2 = some (r3, st3) ∧ r3 = [] := by
  intro ns st f1 f2 hinit hweq hheq hdw hdh hposw hposh
  have hprev := init_prev_none hinit
  have hw1 : f1.width / st.n * st.n = f1.width := Nat.div_mul_cancel hdw
  have hh1 : f1.height / st.n * st.n = f1.height := Nat.div_mul_cancel hdh
  have hw2 : f2.width / st.n * st.n = f2.width := by rw [← hweq]; exact hw1
  have hh2 : f2.height / st.n * st.n = f2.height := by rw [← hheq]; exact hh1
  -- abbreviations for the second and third call
  set sw := f2.width / st.n with hswdef
  set sh := f2.height / st.n with hshdef
  have hswdvd : sw ∣ f2.width := ⟨st.n, by rw [← hw2]⟩
  have hshdvd : sh ∣ f2.height := ⟨st.n, by rw [← hh2]⟩
  have hcovw : f2.width / sw * sw = f2.width := Nat.div_mul_cancel hswdvd
  have hcovh : f2.height / sh * sh = f2.height := Nat.div_mul_cancel hshdvd
  have hswpos : 0 < sw := by
    rcases Nat.eq_zero_or_pos sw with h0 | h
    · rw [h0, Nat.zero_mul] at hw2
      omega
    · exact h
  have hshpos : 0 < sh := by
    rcases Nat.eq_zero_or_pos sh with h0 | h
    · rw [h0, Nat.zero_mul] at hh2
      omega
    · exact h
  -- first call: full frame
  have hr1 := redraw_of_prev_none st f1 hprev hw1 hh1
  refine ⟨[(f1, (0, 0, f1.width, f1.height))], { st with prev_image := some f1 },
    ?_⟩
  -- second call
  have hst1n : ({ st with prev_image := some f1 } : diff_to_previous).n = st.n := rfl
  have hr2 := redraw_of_prev_some { st with prev_image := some f1 } f2 f1 rfl
    (by rw [hst1n]; exact hw2) (by rw [hst1n]; exact hh2)
  rw [hst1n] at hr2
  by_cases hc : (diff_to_previous.deltas f1 f2 sw sh).isEmpty
  · -- no visual delta between f1 and f2
    have hnil : diff_to_previous.deltas f1 f2 sw sh = [] := List.isEmpty_iff.mp hc
    rw [if_pos hc] at hr2
    have heqv : Img.eqv f1 f2 := by
      refine ⟨hweq, hheq, ?_⟩
      intro x hx y hy
      exact px_eq_of_deltas_nil f1 f2 sw sh hcovw hcovh hswpos hshpos hnil x
        (by omega) y (by omega)
    refine ⟨diff_to_previous.deltas f1 f2 sw sh, { st with prev_image := some f1 },
      ?_⟩
    -- third call: same state, same frame, still no delta
    have hr3 := redraw_of_prev_some { st with prev_image := some f1 } f2 f1 rfl
      (by rw [hst1n]; exact hw2) (by rw [hst1n]; exact hh2)
    rw [hst1n, if_pos hc] at hr3
    exact ⟨diff_to_previous.deltas f1 f2 sw sh, { st with prev_image := some f1 },
      hr1, by simp, hr2, ⟨fun _ => heqv, fun _ => hnil⟩, hr3, hnil⟩
  · -- at least one cell changed: the baseline becomes f2
    have hne : diff_to_previous.deltas f1 f2 sw sh ≠ [] := by
      intro h0
      rw [h0] at hc
      simp at hc
    rw [if_neg hc] at hr2
    refine ⟨diff_to_previous.deltas f1 f2 sw sh, { st with prev_image := some f2 },
      ?_⟩
    -- third call: baseline is now f2 itself
    have hnil3 : diff_to_previous.deltas f2 f2 sw sh = [] :=
      deltas_nil_of_px_eq f2 f2 sw sh hcovw hcovh (fun _ _ _ _ => rfl)
    have hr3 := redraw_of_prev_some { st with prev_image := some f2 } f2 f2 rfl
      (by rw [hst1n]; exact hw2) (by rw [hst1n]; exact hh2)
    rw [hst1n, if_pos (List.isEmpty_iff.mpr hnil3)] at hr3
    refine ⟨diff_to_previous.deltas f2 f2 sw sh, { st with prev_image := some f2 },
      hr1, by simp, hr2, ?_, hr3, hnil3⟩
    constructor
    · intro h0
      exact absurd h0 hne
    · intro heqv
      exact deltas_nil_of_px_eq f1 f2 sw sh hcovw hcovh (fun x hx y hy => by
        exact heqv.2.2 x (by omega) y (by omega))

/-- C4: the stored previous frame is `None` exactly on construction;
every completed `redraw` leaves a non-`None` baseline, keeps the state
unchanged when nothing was yielded, and otherwise replaces the baseline
wholesale with (a copy of) the input frame. -/
theorem C4_prev_frame_invariant :
    (∀ (ns : Nat) (st : diff_to_previous),
      diff_to_previous.init ns = some st → st.prev_image = none) ∧
    (∀ (st : diff_to_previous) (image : Img)
        (ds : List (Img × (Nat × Nat × Nat × Nat))) (st' : diff_to_previous),
      diff_to_previous.redraw st image = some (ds, st') →
      st'.prev_image ≠ none ∧
      (ds = [] → st' = st) ∧
      (ds ≠ [] → st'.prev_image = some image)) := by
  constructor
  · intro ns st h
    exact init_prev_none h
  · intro st image ds st' h
    unfold diff_to_previous.redraw at h
    dsimp only at h
    split at h
    · split at h
      · rename_i hprev
        simp only [Option.some_inj, Prod.mk.injEq] at h
        obtain ⟨hds, hst⟩ := h
        refine ⟨by rw [← hst]; simp, ?_, by intro; rw [← hst]⟩
        intro hnil
        rw [hnil] at hds
        exact absurd hds.symm (by simp)
      · rename_i prev hprev
        split at h
        · rename_i hempty
          simp only [Option.some_inj, Prod.mk.injEq] at h
          obtain ⟨hds, hst⟩ := h
          refine ⟨by rw [← hst, hprev]; simp, fun _ => hst.symm, ?_⟩
          intro hne
          exact absurd (by rw [← hds]; exact List.isEmpty_iff.mp hempty) hne
        · rename_i hempty
          simp only [Option.some_inj, Prod.mk.injEq] at h
          obtain ⟨hds, hst⟩ := h
          refine ⟨by rw [← hst]; simp, ?_, by intro; rw [← hst]⟩
          intro hnil
          rw [hnil] at hds
          exact absurd hds (by
            intro hcontra
            rw [hcontra] at hempty
            simp at hempty)
    · exact absurd h (by simp)


/-- C3 witness: the convergence theorem applied to the 1x1 differ with
`num_segments = 1`, a blank first frame and a single-white-pixel second
frame. -/
theorem C3_witness :
    ∃ r1 st1 r2 st2 r3 st3,
      diff_to_previous.redraw { n := 1, prev_image := none } (Img.new 1 1) =
        some (r1, st1) ∧ r1 ≠ [] ∧
      diff_to_previous.redraw st1 { width := 1, height := 1, rows := [[1]] } =
        some (r2, st2) ∧
      (r2 = [] ↔ Img.eqv (Img.new 1 1) { width := 1, height := 1, rows := [[1]] }) ∧
      diff_to_previous.redraw st2 { width := 1, height := 1, rows := [[1]] } =
        some (r3, st3) ∧ r3 = [] :=
  C3_segmented_diff_convergence 1 { n := 1, prev_image := none }
    (Img.new 1 1) { width := 1, height := 1, rows := [[1]] }
    (by decide) (by decide) (by decide) (by decide) (by decide)
    (by decide) (by decide)

/-- C4 witness: the invariant theorem applied to a fresh differ with
`num_segments = 4` and to the concrete first redraw of the blank 4x4
frame. -/
theorem C4_witness :
    (({ n := 2, prev_image := none } : diff_to_previous).prev_image = none) ∧
    (({ n := 2, prev_image := some blankFrame4 } : diff_to_previous).prev_image ≠
        none ∧
      ([(blankFrame4, ((0 : Nat), (0 : Nat), (4 : Nat), (4 : Nat)))] = [] →
        ({ n := 2, prev_image := some blankFrame4 } : diff_to_previous) =
          { n := 2, prev_image := none }) ∧
      ([(blankFrame4, ((0 : Nat), (0 : Nat), (4 : Nat), (4 : Nat)))] ≠ [] →
        ({ n := 2, prev_image := some blankFrame4 } : diff_to_previous).prev_image =
          some blankFrame4)) :=
  ⟨C4_prev_frame_invariant.1 4 { n := 2, prev_image := none } (by decide),
   C4_prev_frame_invariant.2 { n := 2, prev_image := none } blankFrame4
     [(blankFrame4, ((0 : Nat), (0 : Nat), (4 : Nat), (4 : Nat)))]
     { n := 2, prev_image := some blankFrame4 } (by decide)⟩

/-- C1 (counterexample): a viewport with zero registered hotspots on
which `refresh()` nevertheless invokes the device sink's `display()`
exactly once (not zero times, as the claim requires). -/
theorem C1_counterexample :
    viewportNoHotspots._hotspots = [] ∧
    (viewport.refresh viewportNoHotspots []).map (fun r => r.1.length) =
      some 1 := by
  exact ⟨by decide, by decide⟩

/-- C1 (amended): `refresh()` never skips the device I/O: whenever the
crop-box assertion holds and no hotspot is scheduled (zero hotspots,
all reporting `should_redraw() == false`, or no dirty hotspot
overlapping the window), the backing image is left untouched and the
sink's `display()` is still invoked exactly once, with the crop of the
unchanged backing image. -/
theorem C1_refresh_always_displays :
    ∀ (v : viewport) (order : List Nat) (l t r b : Nat),
      v.scheduled = [] →
      viewport.crop_box v = some (l, t, r, b) →
      viewport.refresh v order =
        some ([v._backing_image.crop l t r b], v) := by
  intro v order l t r b hsched hcrop
  unfold viewport.refresh
  dsimp only
  rw [hsched]
  have hnil : (order.filterMap fun i => (([] : List (hotspot × (Int × Int)))[i]?)) = [] := by
    simp
  rw [hnil, List.foldl_nil, hcrop]

/-- C1 witness: the amended theorem applied to the hotspot-free 2x2
viewport. -/
theorem C1_witness :
    viewport.refresh viewportNoHotspots [] =
      some ([viewportNoHotspots._backing_image.crop 0 0 2 2],
            viewportNoHotspots) :=
  C1_refresh_always_displays viewportNoHotspots [] 0 0 2 2 (by decide) (by decide)

/-- C6: the 1-D overlap test is boundary-exclusive — two half-open
ranges overlap exactly when neither lies entirely at-or-before the
other's start — and on the concrete window `[0,128) x [0,64)` a hotspot
occupying `[128,192) x [0,64)` does not overlap while the same hotspot
moved to `[64,128) x [0,64)` does. -/
theorem C6_boundary_exclusive_overlap :
    (∀ a_min a_max b_min b_max : Int,
      range_overlap a_min a_max b_min b_max = true ↔
        (¬ (a_max ≤ b_min) ∧ ¬ (b_max ≤ a_min))) ∧
    viewport.is_overlapping_viewport viewport128 hotspot64 (128, 0) = false ∧
    viewport.is_overlapping_viewport viewport128 hotspot64 (64, 0) = true := by
  refine ⟨?_, by decide, by decide⟩
  intro a_min a_max b_min b_max
  unfold range_overlap
  simp only [Bool.and_eq_true, decide_eq_true_eq, not_le]
  exact ⟨fun h => ⟨h.2, h.1⟩, fun h => ⟨h.2, h.1⟩⟩

/-- C7: from any history state, displaying frame A, taking a savepoint,
displaying frame B and then restoring reproduces exactly frame A on the
wrapped device sink; and restoring on a history with no savepoints
fails (nothing is displayed). -/
theorem C7_history_round_trip :
    (∀ (st : history) (A B : Img),
      (history.restore
        ((history.display ((history.display st A).1.savepoint) B).1) 0).1 =
        some A) ∧
    history.restore { _savepoints := [], _last_image := none } 0 =
      (none, { _savepoints := [], _last_image := none }) := by
  constructor
  · intro st A B
    rfl
  · rfl

/-- Popping at least as many entries as a stack holds either raises
while consuming the whole stack or consumes exactly the whole stack. -/
theorem popN_of_length_le {s : List Img} {drop : Nat}
    (h : s.length ≤ drop) :
    history.popN drop s = none ∨ history.popN drop s = some [] := by
  induction drop generalizing s with
  | zero =>
    right
    rw [List.length_eq_zero.mp (Nat.le_zero.mp h)]
    rfl
  | succ k ih =>
    cases s with
    | nil => left; rfl
    | cons a s =>
      exact ih (by simpa using h)

/-- C10: if a history holds `k` savepoints with `1 ≤ k ≤ drop`, then
`restore(drop)` fails, but only after popping and discarding every
retained savepoint: the stack is left empty and nothing is displayed. -/
theorem C10_restore_underflow_clears_stack :
    ∀ (st : history) (drop : Nat),
      1 ≤ st._savepoints.length → st._savepoints.length ≤ drop →
      history.restore st drop = (none, { st with _savepoints := [] }) := by
  intro st drop _ hle
  unfold history.restore
  rcases popN_of_length_le hle with h | h
  · rw [h]
  · rw [h]

/-- C10 witness: the underflow theorem applied to a history holding two
savepoints with `drop = 3`. -/
theorem C10_witness :
    history.restore historyTwoSavepoints 3 =
      (none, { historyTwoSavepoints with _savepoints := [] }) :=
  C10_restore_underflow_clears_stack historyTwoSavepoints 3 (by decide) (by decide)

theorem Img.paste_px (dest src : Img) (xy : Int × Int) {x y : Nat}
    (hx : x < dest.width) (hy : y < dest.height) :
    (dest.paste src xy).px x y =
      if xy.1 ≤ (x : Int) ∧ (x : Int) < xy.1 + src.width ∧
         xy.2 ≤ (y : Int) ∧ (y : Int) < xy.2 + src.height
      then src.px ((x : Int) - xy.1).toNat ((y : Int) - xy.2).toNat
      else dest.px x y := by
  unfold Img.paste
  exact Img.ofFn_px _ _ _ hx hy

theorem Img.new_px (w h : Nat) {x y : Nat} (hx : x < w) (hy : y < h) :
    (Img.new w h).px x y = 0 := by
  unfold Img.new
  exact Img.ofFn_px _ _ _ hx hy

/-- C8: removing a placement that is not registered fails; removing a
registered placement removes it from the placement list and immediately
paints a blank patch of the hotspot's size at its position into the
backing image (pixels inside the patch become blank, all others are
untouched), without waiting for the next refresh. -/
theorem C8_remove_hotspot_eager_erasure :
    ∀ (v : viewport) (h : hotspot) (xy : Int × Int),
      ((h, xy) ∉ v._hotspots → viewport.remove_hotspot v h xy = none) ∧
      ((h, xy) ∈ v._hotspots →
        ∃ v', viewport.remove_hotspot v h xy = some v' ∧
          v'._hotspots = v._hotspots.erase (h, xy) ∧
          v'._backing_image.width = v._backing_image.width ∧
          v'._backing_image.height = v._backing_image.height ∧
          (∀ x y : Nat, x < v._backing_image.width →
            y < v._backing_image.height →
            (xy.1 ≤ (x : Int) ∧ (x : Int) < xy.1 + h.width ∧
             xy.2 ≤ (y : Int) ∧ (y : Int) < xy.2 + h.height →
              v'._backing_image.px x y = 0) ∧
            (¬ (xy.1 ≤ (x : Int) ∧ (x : Int) < xy.1 + h.width ∧
                xy.2 ≤ (y : Int) ∧ (y : Int) < xy.2 + h.height) →
              v'._backing_image.px x y = v._backing_image.px x y))) := by
  intro v h xy
  constructor
  · intro hmem
    unfold viewport.remove_hotspot
    rw [if_neg hmem]
  · intro hmem
    refine ⟨{ v with
      _hotspots := v._hotspots.erase (h, xy),
      _backing_image := v._backing_image.paste (Img.new h.width h.height) xy },
      ?_, rfl, rfl, rfl, ?_⟩
    · unfold viewport.remove_hotspot
      rw [if_pos hmem]
    · intro x y hx hy
      constructor
      · intro hin
        rw [Img.paste_px _ _ _ hx hy, if_pos (by
          constructor
          · exact hin.1
          constructor
          · show (x : Int) < xy.1 + (Img.new h.width h.height).width
            exact hin.2.1
          constructor
          · exact hin.2.2.1
          · show (y : Int) < xy.2 + (Img.new h.width h.height).height
            exact hin.2.2.2)]
        exact Img.new_px _ _ (by omega) (by omega)
      · intro hout
        rw [Img.paste_px _ _ _ hx hy, if_neg (by
          intro hc
          exact hout ⟨hc.1, hc.2.1, hc.2.2.1, hc.2.2.2⟩)]

/-- C8 witness: the theorem applied to the 2x2 viewport with one
registered 1x1 hotspot at the origin. -/
theorem C8_witness :
    ∃ v', viewport.remove_hotspot viewportOneHotspot hotspotOne (0, 0) =
        some v' ∧
      v'._hotspots = viewportOneHotspot._hotspots.erase (hotspotOne, (0, 0)) ∧
      v'._backing_image.width = viewportOneHotspot._backing_image.width ∧
      v'._backing_image.height = viewportOneHotspot._backing_image.height ∧
      (∀ x y : Nat, x < viewportOneHotspot._backing_image.width →
        y < viewportOneHotspot._backing_image.height →
        (((0 : Int), (0 : Int)).1 ≤ (x : Int) ∧
           (x : Int) < ((0 : Int), (0 : Int)).1 + hotspotOne.width ∧
         ((0 : Int), (0 : Int)).2 ≤ (y : Int) ∧
           (y : Int) < ((0 : Int), (0 : Int)).2 + hotspotOne.height →
          v'._backing_image.px x y = 0) ∧
        (¬ (((0 : Int), (0 : Int)).1 ≤ (x : Int) ∧
             (x : Int) < ((0 : Int), (0 : Int)).1 + hotspotOne.width ∧
            ((0 : Int), (0 : Int)).2 ≤ (y : Int) ∧
             (y : Int) < ((0 : Int), (0 : Int)).2 + hotspotOne.height) →
          v'._backing_image.px x y = viewportOneHotspot._backing_image.px x y)) :=
  (C8_remove_hotspot_eager_erasure viewportOneHotspot hotspotOne (0, 0)).2
    (by decide)

/-- C9 (counterexample): with two overlapping dirty hotspots, two valid
completion orders of the pool's tasks produce different refresh
results: the paste into the shared backing image happens inside each
task, so stacking at overlapping pixels follows completion order and is
NOT deterministic regardless of worker scheduling. -/
theorem C9_counterexample :
    threadpool.completion_order viewportOverlapping.scheduled.length [0, 1] ∧
    threadpool.completion_order viewportOverlapping.scheduled.length [1, 0] ∧
    viewport.refresh viewportOverlapping [0, 1] ≠
      viewport.refresh viewportOverlapping [1, 0] := by
  refine ⟨?_, ?_, by decide⟩
  · unfold threadpool.completion_order
    decide
  · unfold threadpool.completion_order
    decide

/-- Image extensionality for two pixel-function builds of the same
size. -/
theorem Img.ofFn_congr {w h : Nat} {f g : Nat → Nat → Nat}
    (hfg : ∀ x < w, ∀ y < h, f x y = g x y) :
    Img.ofFn w h f = Img.ofFn w h g := by
  unfold Img.ofFn
  simp only [Img.mk.injEq, true_and]
  refine List.map_congr_left ?_
  intro y hy
  refine List.map_congr_left ?_
  intro x hx
  exact hfg x (List.mem_range.mp hx) y (List.mem_range.mp hy)

/-- Pastes of sources into disjoint rectangles commute. -/
theorem Img.paste_comm (img s1 s2 : Img) (xy1 xy2 : Int × Int)
    (hd : xy1.1 + s1.width ≤ xy2.1 ∨ xy2.1 + s2.width ≤ xy1.1 ∨
          xy1.2 + s1.height ≤ xy2.2 ∨ xy2.2 + s2.height ≤ xy1.2) :
    (img.paste s1 xy1).paste s2 xy2 = (img.paste s2 xy2).paste s1 xy1 := by
  show Img.ofFn (img.paste s1 xy1).width (img.paste s1 xy1).height _ =
    Img.ofFn (img.paste s2 xy2).width (img.paste s2 xy2).height _
  have h1w : (img.paste s1 xy1).width = img.width := rfl
  have h1h : (img.paste s1 xy1).height = img.height := rfl
  have h2w : (img.paste s2 xy2).width = img.width := rfl
  have h2h : (img.paste s2 xy2).height = img.height := rfl
  rw [h1w, h1h, h2w, h2h]
  refine Img.ofFn_congr ?_
  intro x hx y hy
  rw [Img.paste_px _ _ _ hx hy, Img.paste_px _ _ _ hx hy]
  by_cases h1 : xy1.1 ≤ (x : Int) ∧ (x : Int) < xy1.1 + s1.width ∧
      xy1.2 ≤ (y : Int) ∧ (y : Int) < xy1.2 + s1.height
  · by_cases h2 : xy2.1 ≤ (x : Int) ∧ (x : Int) < xy2.1 + s2.width ∧
        xy2.2 ≤ (y : Int) ∧ (y : Int) < xy2.2 + s2.height
    · exfalso
      rcases hd with hd | hd | hd | hd <;> omega
    · rw [if_neg h2, if_pos h1, if_pos h1]
  · by_cases h2 : xy2.1 ≤ (x : Int) ∧ (x : Int) < xy2.1 + s2.width ∧
        xy2.2 ≤ (y : Int) ∧ (y : Int) < xy2.2 + s2.height
    · rw [if_pos h2, if_neg h1, if_pos h2]
    · rw [if_neg h2, if_neg h1, if_neg h1, if_neg h2]

/-- C9 (amended): each scheduled task pastes its freshly rendered
buffer into the shared backing image itself, as it completes, so
composition follows the pool's completion order; the refresh result is
schedule-independent only when no two scheduled placements overlap, in
which case any two completion orders that are permutations of one
another produce identical results. -/
theorem C9_disjoint_schedule_independent :
    ∀ (v : viewport) (ord1 ord2 : List Nat),
      ord1.Perm ord2 →
      (∀ p ∈ v.scheduled, ∀ q ∈ v.scheduled, p ≠ q → placements_disjoint p q) →
      viewport.refresh v ord1 = viewport.refresh v ord2 := by
  intro v ord1 ord2 hperm hdisj
  unfold viewport.refresh
  dsimp only
  have hfm : (ord1.filterMap fun i => v.scheduled[i]?).Perm
      (ord2.filterMap fun i => v.scheduled[i]?) := hperm.filterMap _
  have hfold : (ord1.filterMap fun i => v.scheduled[i]?).foldl
      (fun img p => p.1.paste_into img p.2) v._backing_image =
      (ord2.filterMap fun i => v.scheduled[i]?).foldl
      (fun img p => p.1.paste_into img p.2) v._backing_image := by
    refine hfm.foldl_eq' ?_ _
    intro p hp q hq z
    have hp' : p ∈ v.scheduled := by
      rcases List.mem_filterMap.mp hp with ⟨i, _, hi⟩
      exact List.getElem?_mem hi
    have hq' : q ∈ v.scheduled := by
      rcases List.mem_filterMap.mp hq with ⟨i, _, hi⟩
      exact List.getElem?_mem hi
    by_cases hpq : p = q
    · rw [hpq]
    · have hd := hdisj p hp' q hq' hpq
      unfold hotspot.paste_into
      exact Img.paste_comm z _ _ p.2 q.2 hd
  rw [hfold]

/-- C9 witness: the schedule-independence theorem applied to the 2x1
viewport whose two dirty hotspots occupy disjoint cells, with the two
completion orders of its two tasks. -/
theorem C9_witness :
    viewport.refresh viewportDisjoint [0, 1] =
      viewport.refresh viewportDisjoint [1, 0] :=
  C9_disjoint_schedule_independent viewportDisjoint [0, 1] [1, 0]
    (by decide) (by decide)
